import Mathlib

/-!
Shallow embedding of the lyrics-timeline synchronization engine of this
repository: the functions lyricSplit, LyricsSynchronizer.start, stop,
update_lyrics_display, handle_track_change and the control skeleton of
_force_update_task from custom_components/music_companion/lyrics.py
(the same logic appears in custom_components/tagging_and_lyrics/lyrics.py).

Modelling conventions: Python floats are modelled as exact rationals,
timestamps in milliseconds as integers or rationals, and the effect of
pushing a display triple to the rendering sink is made explicit by
returning the list of pushed triples alongside the new state.
-/

namespace MusicCompanion

/-! ## Python string helpers used by lyricSplit -/

/-- The whitespace characters stripped by Python str.strip() with no
argument: the full Unicode whitespace set (code points where str.isspace
holds): U+0009 to U+000D, U+001C to U+001F, U+0020, U+0085, U+00A0,
U+1680, U+2000 to U+200A, U+2028, U+2029, U+202F, U+205F and U+3000. -/
def isPySpace (c : Char) : Bool :=
  c = '\x09' || c = '\x0a' || c = '\x0b' || c = '\x0c' || c = '\x0d' ||
  c = '\x1c' || c = '\x1d' || c = '\x1e' || c = '\x1f' || c = ' ' ||
  c = '\u0085' || c = '\u00a0' || c = '\u1680' || c = '\u2000' ||
  c = '\u2001' || c = '\u2002' || c = '\u2003' || c = '\u2004' ||
  c = '\u2005' || c = '\u2006' || c = '\u2007' || c = '\u2008' ||
  c = '\u2009' || c = '\u200a' || c = '\u2028' || c = '\u2029' ||
  c = '\u202f' || c = '\u205f' || c = '\u3000'

/-- The line boundaries of Python str.splitlines(): line feed, carriage
return (with a following line feed consumed as one boundary), vertical
tab, form feed, the file/group/record separators U+001C to U+001E, next
line U+0085, and the Unicode line and paragraph separators U+2028 and
U+2029. -/
def isLineBreak (c : Char) : Bool :=
  c = '\n' || c = '\r' || c = '\x0b' || c = '\x0c' ||
  c = '\x1c' || c = '\x1d' || c = '\x1e' ||
  c = '\u0085' || c = '\u2028' || c = '\u2029'

/-- Python str.strip(): remove leading and trailing whitespace. -/
def stripChars (cs : List Char) : List Char :=
  ((cs.dropWhile isPySpace).reverse.dropWhile isPySpace).reverse

/-- Numeric value of a decimal digit character. -/
def digitVal (c : Char) : Nat := c.toNat - '0'.toNat

/-- Value of a digit string read in base 10. -/
def digitsToNat (cs : List Char) : Nat :=
  cs.foldl (fun a c => a * 10 + digitVal c) 0

/-- Parse a nonempty all-digit string as a natural number. -/
def parseNatDigits (cs : List Char) : Option Nat :=
  if cs ≠ [] ∧ cs.all Char.isDigit then some (digitsToNat cs) else none

/-- Python int(str) on the minutes field: optional surrounding whitespace,
optional sign, then a nonempty run of digits. -/
def parseIntPy (cs : List Char) : Option Int :=
  match stripChars cs with
  | '-' :: rest => (parseNatDigits rest).map (fun n => -(n : Int))
  | '+' :: rest => (parseNatDigits rest).map (fun n => (n : Int))
  | t => (parseNatDigits t).map (fun n => (n : Int))

/-- Split a character list on every occurrence of a separator character,
like Python str.split(sep): the result is never empty and keeps empty
segments. -/
def splitOnCharAux (sep : Char) : List Char → List Char → List (List Char)
  | [], acc => [acc.reverse]
  | c :: rest, acc =>
      if c = sep then acc.reverse :: splitOnCharAux sep rest []
      else splitOnCharAux sep rest (c :: acc)

def splitOnChar (sep : Char) (cs : List Char) : List (List Char) :=
  splitOnCharAux sep cs []

/-- Decimal numeral body accepted by Python float(str) for the seconds
field: digits with at most one decimal point and at least one digit.
The float value is represented exactly as a pair (numerator, scale)
denoting numerator / 10 ^ scale.  Exponent and inf/nan spellings are not
modelled. -/
def parseDecimal (cs : List Char) : Option (Int × Nat) :=
  match splitOnChar '.' cs with
  | [a] => (parseNatDigits a).map (fun n => ((n : Int), 0))
  | [a, b] =>
      if (a ≠ [] ∨ b ≠ []) ∧ a.all Char.isDigit ∧ b.all Char.isDigit then
        some (((digitsToNat a * 10 ^ b.length + digitsToNat b : Nat) : Int), b.length)
      else none
  | _ => none

/-- Python float(str) on the seconds field: optional surrounding
whitespace, optional sign, then a decimal numeral.  The result denotes
the exact rational numerator / 10 ^ scale. -/
def parseFloatPy (cs : List Char) : Option (Int × Nat) :=
  match stripChars cs with
  | '-' :: rest => (parseDecimal rest).map (fun p => (-p.1, p.2))
  | '+' :: rest => parseDecimal rest
  | t => parseDecimal t

/-- The exact rational denoted by a parsed seconds value. -/
def secondsVal (p : Int × Nat) : ℚ := (p.1 : ℚ) / ((10 : ℚ) ^ p.2)

/-- Python int() applied to a real value: truncation toward zero. -/
def truncQ (q : ℚ) : Int := Int.tdiv q.num (q.den : Int)

/-- Scan for the first closing bracket: on success return the characters
before the first occurrence of the right-bracket character and the
remainder after it. -/
def splitAtClose : List Char → Option (List Char × List Char)
  | [] => none
  | c :: rest =>
      if c = ']' then some ([], rest)
      else (splitAtClose rest).map (fun p => (c :: p.1, p.2))

/-- The regex match of a non-greedy bracketed group applied right after an
opening bracket: at least one character, then the first closing bracket.
Returns the bracket content and the remainder after the closing bracket. -/
def bracketMatch : List Char → Option (List Char × List Char)
  | [] => none
  | c :: rest => (splitAtClose rest).map (fun p => (c :: p.1, p.2))

/-- Fuelled worker for removing every non-greedy bracketed group, the
behaviour of re.sub on the bracket regex.  The fuel only serves
termination; removeBrackets always supplies enough. -/
def removeBracketsFuel : Nat → List Char → List Char
  | 0, cs => cs
  | _ + 1, [] => []
  | fuel + 1, c :: rest =>
      if c = '[' then
        match bracketMatch rest with
        | some p => removeBracketsFuel fuel p.2
        | none => c :: removeBracketsFuel fuel rest
      else c :: removeBracketsFuel fuel rest

/-- re.sub of the non-greedy bracket regex with the empty string: delete
every bracketed group, scanning left to right. -/
def removeBrackets (cs : List Char) : List Char :=
  removeBracketsFuel cs.length cs

/-- Python str.splitlines() worker: split at every line terminator, where
a carriage-return/line-feed pair counts as a single terminator, and a
trailing terminator produces no extra empty line. -/
def splitlinesGo : List Char → List Char → List (List Char)
  | [], acc => if acc = [] then [] else [acc.reverse]
  | '\r' :: '\n' :: rest, acc => acc.reverse :: splitlinesGo rest []
  | c :: rest, acc =>
      if isLineBreak c then acc.reverse :: splitlinesGo rest []
      else splitlinesGo rest (c :: acc)

/-- Python str.splitlines(). -/
def splitlines (cs : List Char) : List (List Char) :=
  splitlinesGo cs []

/-! ## lyricSplit -/

/-- One iteration of the lyricSplit loop body on a single line: the
startswith guard for a bracket whose first digit is 0 to 3, the regex
match extracting the timestamp, removal of all bracketed groups plus
strip, the emptiness check, and the minutes/seconds conversion guarded
against malformed numerals (which skip the line). Returns the timestamp
in milliseconds and the cleaned line text, or none when the line is
skipped. The Python code computes int((minutes * 60 + seconds) * 1000)
over IEEE binary64 doubles; the embedding evaluates the same formula
over the exact decimal value of the seconds string (parseFloatPy returns
its numerator and scale), which matches the double computation whenever
every double intermediate is exactly representable - theorems about the
conversion are restricted to that domain. -/
def processLine (line : List Char) : Option (Int × List Char) :=
  match line with
  | '[' :: c :: rest =>
      if c = '0' ∨ c = '1' ∨ c = '2' ∨ c = '3' then
        match bracketMatch (c :: rest) with
        | none => none
        | some p =>
            let stripped := stripChars (removeBrackets line)
            if stripped = [] then none
            else
              match splitOnChar ':' p.1 with
              | p0 :: p1 :: _ =>
                  match parseIntPy p0, parseFloatPy p1 with
                  | some mins, some secs =>
                      some (Int.tdiv ((mins * 60 * (10 ^ secs.2 : Int) + secs.1) * 1000)
                              (10 ^ secs.2 : Int), stripped)
                  | _, _ => none
              | _ => none
      else none
  | _ => none

/-- Run processLine over a list of lines, collecting the timeline and the
line texts in order. -/
def lyricSplitLines : List (List Char) → List Int × List String
  | [] => ([], [])
  | l :: ls =>
      let r := lyricSplitLines ls
      match processLine l with
      | some p => (p.1 :: r.1, String.mk p.2 :: r.2)
      | none => r

/-- lyricSplit from lyrics.py: split raw lyric text into a millisecond
timeline and the parallel list of lyric lines. -/
def lyricSplit (s : String) : List Int × List String :=
  lyricSplitLines (splitlines s.data)

example : lyricSplit "[00:01.50]Hello\n[00:03.00]World" = ([1500, 3000], ["Hello", "World"]) := by
  decide

example : lyricSplit "[40:00.00]Hello" = ([], []) := by decide

example : lyricSplit "[00:02.00]B\n[00:01.00]A" = ([2000, 1000], ["B", "A"]) := by decide

/-! ## The LyricsSynchronizer state machine

The synchronizer state keeps the fields of LyricsSynchronizer that the
resolution, seek and stop logic reads and writes: the active flag, whether
a media tracker is attached, the timeline, the parallel lyric lines, and
the current line index (-1 meaning before the first line).  Playback
positions are rationals (Python floats modelled exactly); each operation
returns the new state together with the list of display triples pushed to
the sink, in order. -/

/-- A (previous, current, next) display triple pushed to the sink. -/
abbrev Triple := String × String × String

structure SyncState where
  active : Bool
  media_tracker : Bool
  timeline : List ℚ
  lyrics : List String
  current_line_index : Int
deriving DecidableEq

/-- Worker for the scan loops of lyrics.py of the form
for i in range(1, len(timeline)): if P(timeline[i-1], timeline[i]): ...
returning the first index i whose adjacent pair satisfies P. -/
def scanPairsAux (P : ℚ → ℚ → Bool) : ℚ → List ℚ → Nat → Option Nat
  | _, [], _ => none
  | prev, c :: rest, i =>
      if P prev c then some i else scanPairsAux P c rest (i + 1)

def scanPairs (P : ℚ → ℚ → Bool) : List ℚ → Option Nat
  | [] => none
  | a :: rest => scanPairsAux P a rest 1

/-- The boundary search of lyrics.py: the first index i with
timeline[i-1] <= position_ms < timeline[i]. -/
def findLine (t : List ℚ) (pos : ℚ) : Option Nat :=
  scanPairs (fun a b => decide (a ≤ pos) && decide (pos < b)) t

/-- The radio-source priming search of LyricsSynchronizer.start: the first
index i with timeline[i-1] strictly after the position but within the
10000 ms look-ahead window. -/
def findUpcoming (t : List ℚ) (pos : ℚ) : Option Nat :=
  scanPairs (fun a _ => decide (pos < a) && decide (a < pos + 10000)) t

/-- The display triple built at a matched index i throughout lyrics.py:
(lyrics[i-2] if i > 1 else "", lyrics[i-1], lyrics[i] if i < len else ""). -/
def tripleAt (lyrics : List String) (i : Nat) : Triple :=
  (if 1 < i then lyrics.getD (i - 2) "" else "",
   lyrics.getD (i - 1) "",
   if i < lyrics.length then lyrics.getD i "" else "")

/-- LyricsSynchronizer.stop: a no-op when already idle; otherwise clear
the active flag, stop and release the media tracker, and push the empty
triple to clear the sink. -/
def stop (s : SyncState) : SyncState × List Triple :=
  if s.active = false then (s, [])
  else ({ s with active := false, media_tracker := false }, [("", "", "")])

/-- LyricsSynchronizer.update_lyrics_display, the position-tick callback:
guard on an active session with data, convert the position to
milliseconds, stop when the last timestamp is reached, otherwise run the
boundary search, pushing a new triple only when the resolved index
differs from the stored one, and falling back to the waiting placeholder
before the first line (again only on an index change). -/
def update_lyrics_display (s : SyncState) (media_timecode : ℚ) :
    SyncState × List Triple :=
  if s.active = false ∨ s.timeline = [] ∨ s.lyrics = [] then (s, [])
  else
    let position_ms := media_timecode * 1000
    if s.timeline.getD (s.timeline.length - 1) 0 ≤ position_ms then stop s
    else
      match findLine s.timeline position_ms with
      | some i =>
          if (i : Int) - 1 ≠ s.current_line_index then
            ({ s with current_line_index := (i : Int) - 1 }, [tripleAt s.lyrics i])
          else (s, [])
      | none =>
          if position_ms < s.timeline.getD 0 0 then
            if s.current_line_index ≠ -1 then
              ({ s with current_line_index := -1 },
               [("", "Waiting for first line...", s.lyrics.getD 0 "")])
            else (s, [])
          else (s, [])

/-- LyricsSynchronizer.handle_track_change.  A real track change always
stops the session.  A seek re-resolves against the on-demand position
snapshot of the media tracker; the snapshot is modelled as an optional
rational (none when no tracker is attached or it has no position yet, in
which case the source does nothing). -/
def handle_track_change (s : SyncState) (is_track_change : Bool)
    (trackerPos : Option ℚ) : SyncState × List Triple :=
  if is_track_change then stop s
  else
    match trackerPos with
    | none => (s, [])
    | some cur =>
        let position_ms := cur * 1000
        match findLine s.timeline position_ms with
        | some i =>
            ({ s with current_line_index := (i : Int) - 1 }, [tripleAt s.lyrics i])
        | none =>
            if position_ms < s.timeline.getD 0 0 then
              ({ s with current_line_index := -1 },
               [("", "Waiting for first line...", s.lyrics.getD 0 "")])
            else
              ({ s with current_line_index := -1 }, [("", "Lyrics finished", "")])

/-- LyricsSynchronizer.start for an idle synchronizer (a previously active
session would first run stop): store the data, push the loading triple,
then, when an initial position is known, prime the index: for a radio
source first look for an upcoming line inside the look-ahead window, fall
back to the plain boundary search, and finally to showing the first one
or two lines when nothing matched.  The tracker attachment and activation
of the periodic tasks are reflected in the resulting state flags. -/
def start (timeline : List ℚ) (lyrics : List String) (pos : Option ℚ)
    (is_radio_source : Bool) : SyncState × List Triple :=
  let loadTriple : Triple := ("", "Loading lyrics...", lyrics.getD 0 "")
  let base : SyncState :=
    { active := true, media_tracker := true, timeline := timeline,
      lyrics := lyrics, current_line_index := -1 }
  match pos with
  | none => (base, [loadTriple])
  | some p =>
      let initial_position_ms := p * 1000
      match (if is_radio_source then findUpcoming timeline initial_position_ms else none) with
      | some i =>
          ({ base with current_line_index := (i : Int) - 1 },
           [loadTriple, tripleAt lyrics i])
      | none =>
          match findLine timeline initial_position_ms with
          | some i =>
              ({ base with current_line_index := (i : Int) - 1 },
               [loadTriple, tripleAt lyrics i])
          | none =>
              if 0 < lyrics.length then
                if 1 < lyrics.length then
                  (base, [loadTriple, ("", lyrics.getD 0 "", lyrics.getD 1 "")])
                else
                  (base, [loadTriple, ("", lyrics.getD 0 "", "")])
              else (base, [loadTriple])

/-- Deliver a sequence of position ticks to the synchronizer, collecting
every pushed triple in order. -/
def runTicks (s : SyncState) : List ℚ → SyncState × List Triple
  | [] => (s, [])
  | p :: ps =>
      let r := update_lyrics_display s p
      let r2 := runTicks r.1 ps
      (r2.1, r.2 ++ r2.2)

/-! ## Control skeleton of the watchdog task

_force_update_task is: try { while self.active { sleep; body } }
except CancelledError { log } except Exception { log }.  The body of one
iteration is abstracted by its outcome: it completes normally, raises a
non-cancellation exception, or the sleep is cancelled.  The list of
outcomes describes the successive iterations the loop would attempt while
the session stays active (the list ends when the active flag goes down,
which exits the while loop normally). -/

inductive IterResult
  | ok
  | raise
  | cancel
deriving DecidableEq

inductive TaskExit
  | completed
  | caughtCancel
  | caughtExn
deriving DecidableEq

/-- Run the watchdog control skeleton: returns how many iterations were
entered and how the task ended.  Because the try/except sits outside the
while loop, the first raising iteration leaves the loop and the task ends
in the corresponding except handler. -/
def force_update_task_run : List IterResult → Nat × TaskExit
  | [] => (0, TaskExit.completed)
  | IterResult.ok :: rest =>
      let r := force_update_task_run rest
      (r.1 + 1, r.2)
  | IterResult.raise :: _ => (1, TaskExit.caughtExn)
  | IterResult.cancel :: _ => (1, TaskExit.caughtCancel)

/-! ## Lemmas about the Python string helpers -/

/-- A decimal digit is none of the delimiter characters the parser cares
about, is not a Python line boundary, and is not Python whitespace. -/
theorem digit_char_facts (c : Char) (h : c.isDigit = true) :
    c ≠ '[' ∧ c ≠ ']' ∧ c ≠ ':' ∧ c ≠ '.' ∧ isLineBreak c = false ∧
      c ≠ '-' ∧ c ≠ '+' ∧ isPySpace c = false := by
  refine ⟨?_, ?_, ?_, ?_, ?_, ?_, ?_, ?_⟩
  · intro e; subst e; revert h; decide
  · intro e; subst e; revert h; decide
  · intro e; subst e; revert h; decide
  · intro e; subst e; revert h; decide
  · unfold isLineBreak
    simp only [Bool.or_eq_false_iff, decide_eq_false_iff_not]
    and_intros <;> (intro e; subst e; revert h; decide)
  · intro e; subst e; revert h; decide
  · intro e; subst e; revert h; decide
  · unfold isPySpace
    simp only [Bool.or_eq_false_iff, decide_eq_false_iff_not]
    and_intros <;> (intro e; subst e; revert h; decide)

theorem dropWhile_isPySpace_eq_self (cs : List Char)
    (h : ∀ c ∈ cs, isPySpace c = false) : cs.dropWhile isPySpace = cs := by
  cases cs with
  | nil => rfl
  | cons c rest => simp [List.dropWhile_cons, h c (by simp)]

theorem stripChars_eq_self (cs : List Char)
    (h : ∀ c ∈ cs, isPySpace c = false) : stripChars cs = cs := by
  unfold stripChars
  rw [dropWhile_isPySpace_eq_self cs h]
  rw [dropWhile_isPySpace_eq_self cs.reverse
    (fun c hc => h c (List.mem_reverse.mp hc))]
  exact List.reverse_reverse cs

theorem splitlinesGo_cons_lf (rest acc : List Char) :
    splitlinesGo ('\n' :: rest) acc = acc.reverse :: splitlinesGo rest [] := by
  rfl

set_option maxHeartbeats 1000000 in
theorem splitlinesGo_cons_other (c : Char) (rest acc : List Char)
    (h : isLineBreak c = false) :
    splitlinesGo (c :: rest) acc = splitlinesGo rest (c :: acc) := by
  rw [splitlinesGo.eq_def]
  split <;> simp_all [isLineBreak]

theorem splitlinesGo_no_newline :
    ∀ (cs acc : List Char), (∀ c ∈ cs, isLineBreak c = false) →
      splitlinesGo cs acc =
        if acc = [] ∧ cs = [] then [] else [acc.reverse ++ cs] := by
  intro cs
  induction cs with
  | nil =>
      intro acc _
      by_cases ha : acc = [] <;> simp [splitlinesGo, ha]
  | cons c rest ih =>
      intro acc h
      rw [splitlinesGo_cons_other c rest acc (h c (by simp))]
      rw [ih (c :: acc) (fun x hx => h x (by simp [hx]))]
      simp

/-- Python splitlines on text without line boundaries: the whole text is
the single line (and no line at all when the text is empty). -/
theorem splitlines_single (cs : List Char)
    (h : ∀ c ∈ cs, isLineBreak c = false) :
    splitlines cs = if cs = [] then [] else [cs] := by
  unfold splitlines
  rw [splitlinesGo_no_newline cs [] h]
  simp

theorem splitlinesGo_append_lf :
    ∀ (l1 l2 acc : List Char), (∀ c ∈ l1, isLineBreak c = false) →
      splitlinesGo (l1 ++ '\n' :: l2) acc =
        (acc.reverse ++ l1) :: splitlinesGo l2 [] := by
  intro l1
  induction l1 with
  | nil =>
      intro l2 acc _
      simp [splitlinesGo_cons_lf]
  | cons c rest ih =>
      intro l2 acc h
      rw [List.cons_append, splitlinesGo_cons_other c _ acc (h c (by simp))]
      rw [ih l2 (c :: acc) (fun x hx => h x (by simp [hx]))]
      simp

/-- Python splitlines distributes over a line-feed join. -/
theorem splitlines_append_lf (l1 l2 : List Char)
    (h : ∀ c ∈ l1, isLineBreak c = false) :
    splitlines (l1 ++ '\n' :: l2) = l1 :: splitlines l2 := by
  unfold splitlines
  rw [splitlinesGo_append_lf l1 l2 [] h]
  simp

/-- The timeline produced by the line loop is exactly the per-line parse
results, in input order. -/
theorem lyricSplitLines_timeline (ls : List (List Char)) :
    (lyricSplitLines ls).1 = ls.filterMap (fun l => (processLine l).map Prod.fst) := by
  induction ls with
  | nil => rfl
  | cons l ls ih =>
      simp only [lyricSplitLines, List.filterMap_cons]
      cases h : processLine l <;> simp [h, ih]

/-- The line loop processes independent groups of lines independently. -/
theorem lyricSplitLines_append (ls1 ls2 : List (List Char)) :
    lyricSplitLines (ls1 ++ ls2) =
      ((lyricSplitLines ls1).1 ++ (lyricSplitLines ls2).1,
       (lyricSplitLines ls1).2 ++ (lyricSplitLines ls2).2) := by
  induction ls1 with
  | nil => simp [lyricSplitLines]
  | cons l ls ih =>
      simp only [List.cons_append]
      cases h : processLine l <;> simp [lyricSplitLines, h, ih]

theorem splitAtClose_append :
    ∀ (pre suf : List Char), (∀ c ∈ pre, c ≠ ']') →
      splitAtClose (pre ++ ']' :: suf) = some (pre, suf) := by
  intro pre
  induction pre with
  | nil => intro suf _; simp [splitAtClose]
  | cons c rest ih =>
      intro suf h
      have hc : c ≠ ']' := h c (by simp)
      simp [splitAtClose, hc, ih suf (fun x hx => h x (by simp [hx]))]

theorem bracketMatch_append (content suf : List Char) (hne : content ≠ [])
    (h : ∀ x ∈ content, x ≠ ']') :
    bracketMatch (content ++ ']' :: suf) = some (content, suf) := by
  cases content with
  | nil => exact absurd rfl hne
  | cons c rest =>
      simp [bracketMatch, splitAtClose_append rest suf (fun x hx => h x (by simp [hx]))]

theorem removeBracketsFuel_no_open :
    ∀ (fuel : Nat) (cs : List Char), (∀ c ∈ cs, c ≠ '[') →
      removeBracketsFuel fuel cs = cs := by
  intro fuel
  induction fuel with
  | zero => intro cs _; rfl
  | succ fuel ih =>
      intro cs h
      cases cs with
      | nil => rfl
      | cons c rest =>
          have hc : c ≠ '[' := h c (by simp)
          simp [removeBracketsFuel, hc, ih rest (fun x hx => h x (by simp [hx]))]

/-- Removing brackets from a line that starts with one bracketed group and
continues with bracket-free text leaves exactly the text. -/
theorem removeBrackets_bracket_line (content text : List Char)
    (hne : content ≠ []) (hc : ∀ x ∈ content, x ≠ ']')
    (ht : ∀ x ∈ text, x ≠ '[') :
    removeBrackets ('[' :: content ++ ']' :: text) = text := by
  unfold removeBrackets
  have hlen : ('[' :: content ++ ']' :: text).length
      = (content ++ ']' :: text).length + 1 := by simp
  rw [hlen]
  rw [show removeBracketsFuel ((content ++ ']' :: text).length + 1)
        ('[' :: content ++ ']' :: text)
      = match bracketMatch (content ++ ']' :: text) with
        | some p => removeBracketsFuel (content ++ ']' :: text).length p.2
        | none => '[' :: removeBracketsFuel (content ++ ']' :: text).length
            (content ++ ']' :: text) from by
    simp [removeBracketsFuel]]
  rw [bracketMatch_append content text hne hc]
  exact removeBracketsFuel_no_open _ text ht

theorem splitOnCharAux_no_sep (sep : Char) :
    ∀ (cs acc : List Char), (∀ c ∈ cs, c ≠ sep) →
      splitOnCharAux sep cs acc = [acc.reverse ++ cs] := by
  intro cs
  induction cs with
  | nil => intro acc _; simp [splitOnCharAux]
  | cons c rest ih =>
      intro acc h
      have hc : c ≠ sep := h c (by simp)
      rw [show splitOnCharAux sep (c :: rest) acc
          = splitOnCharAux sep rest (c :: acc) from by
        simp [splitOnCharAux, hc]]
      rw [ih (c :: acc) (fun x hx => h x (by simp [hx]))]
      simp

theorem splitOnCharAux_append (sep : Char) :
    ∀ (x y acc : List Char), (∀ c ∈ x, c ≠ sep) →
      splitOnCharAux sep (x ++ sep :: y) acc =
        (acc.reverse ++ x) :: splitOnCharAux sep y [] := by
  intro x
  induction x with
  | nil =>
      intro y acc _
      simp [splitOnCharAux]
  | cons c rest ih =>
      intro y acc h
      have hc : c ≠ sep := h c (by simp)
      rw [List.cons_append]
      rw [show splitOnCharAux sep (c :: (rest ++ sep :: y)) acc
          = splitOnCharAux sep (rest ++ sep :: y) (c :: acc) from by
        simp [splitOnCharAux, hc]]
      rw [ih y (c :: acc) (fun z hz => h z (by simp [hz]))]
      simp

/-- Python split on a separator occurring exactly once. -/
theorem splitOnChar_pair (sep : Char) (x y : List Char)
    (hx : ∀ c ∈ x, c ≠ sep) (hy : ∀ c ∈ y, c ≠ sep) :
    splitOnChar sep (x ++ sep :: y) = [x, y] := by
  unfold splitOnChar
  rw [splitOnCharAux_append sep x y [] hx]
  rw [splitOnCharAux_no_sep sep y [] hy]
  simp

/-! ## Lemmas about the numeral parsers and the truncating conversion -/

theorem parseNatDigits_digits (cs : List Char) (hne : cs ≠ [])
    (hd : ∀ c ∈ cs, c.isDigit = true) :
    parseNatDigits cs = some (digitsToNat cs) := by
  unfold parseNatDigits
  rw [if_pos]
  exact ⟨hne, List.all_eq_true.mpr hd⟩

theorem parseIntPy_digits (cs : List Char) (hne : cs ≠ [])
    (hd : ∀ c ∈ cs, c.isDigit = true) :
    parseIntPy cs = some ((digitsToNat cs : ℤ)) := by
  unfold parseIntPy
  rw [stripChars_eq_self cs (fun c hc => (digit_char_facts c (hd c hc)).2.2.2.2.2.2.2)]
  split
  · exact absurd (hd '-' (by simp)) (by decide)
  · exact absurd (hd '+' (by simp)) (by decide)
  · rw [parseNatDigits_digits cs hne hd]
    rfl

theorem parseFloatPy_frac (s1 s2 : List Char)
    (hs1 : ∀ c ∈ s1, c.isDigit = true) (hs2 : ∀ c ∈ s2, c.isDigit = true)
    (hne : s1 ≠ [] ∨ s2 ≠ []) :
    parseFloatPy (s1 ++ '.' :: s2)
      = some (((digitsToNat s1 * 10 ^ s2.length + digitsToNat s2 : ℕ) : ℤ), s2.length) := by
  have hnospace : ∀ c ∈ s1 ++ '.' :: s2, isPySpace c = false := by
    intro c hc
    rcases List.mem_append.mp hc with h | h
    · exact (digit_char_facts c (hs1 c h)).2.2.2.2.2.2.2
    · rcases List.mem_cons.mp h with rfl | h
      · decide
      · exact (digit_char_facts c (hs2 c h)).2.2.2.2.2.2.2
  have hdot : parseDecimal (s1 ++ '.' :: s2)
      = some (((digitsToNat s1 * 10 ^ s2.length + digitsToNat s2 : ℕ) : ℤ), s2.length) := by
    unfold parseDecimal
    rw [splitOnChar_pair '.' s1 s2
      (fun c hc => (digit_char_facts c (hs1 c hc)).2.2.2.1)
      (fun c hc => (digit_char_facts c (hs2 c hc)).2.2.2.1)]
    exact if_pos ⟨hne, List.all_eq_true.mpr hs1, List.all_eq_true.mpr hs2⟩
  unfold parseFloatPy
  rw [stripChars_eq_self _ hnospace]
  split
  · next rest heq =>
      cases s1 with
      | nil => simp at heq
      | cons c rest' =>
          have := (digit_char_facts c (hs1 c (by simp))).2.2.2.2.2.1
          rw [List.cons_append, List.cons.injEq] at heq
          exact absurd heq.1 this
  · next rest heq =>
      cases s1 with
      | nil => simp at heq
      | cons c rest' =>
          have := (digit_char_facts c (hs1 c (by simp))).2.2.2.2.2.2.1
          rw [List.cons_append, List.cons.injEq] at heq
          exact absurd heq.1 this
  · exact hdot

theorem truncQ_neg (q : ℚ) : truncQ (-q) = -truncQ q := by
  unfold truncQ
  rw [Rat.neg_num, Rat.neg_den, Int.neg_tdiv]

theorem truncQ_intCast_div_natCast_nonneg (n : ℤ) (d : ℕ) (hn : 0 ≤ n) :
    truncQ ((n : ℚ) / (d : ℚ)) = Int.tdiv n (d : ℤ) := by
  have hq : (0 : ℚ) ≤ (n : ℚ) / (d : ℚ) :=
    div_nonneg (by exact_mod_cast hn) (by positivity)
  have hnum : 0 ≤ ((n : ℚ) / (d : ℚ)).num := Rat.num_nonneg.mpr hq
  unfold truncQ
  rw [Int.tdiv_eq_ediv hnum (Int.natCast_nonneg _)]
  rw [← Rat.floor_def]
  rw [Rat.floor_intCast_div_natCast]
  exact (Int.tdiv_eq_ediv hn (Int.natCast_nonneg d)).symm

/-- Truncation toward zero of an exact decimal n / 10 ^ k is integer
t-division, for any sign of n. -/
theorem truncQ_intCast_div_natCast (n : ℤ) (d : ℕ) :
    truncQ ((n : ℚ) / (d : ℚ)) = Int.tdiv n (d : ℤ) := by
  rcases le_or_lt 0 n with hn | hn
  · exact truncQ_intCast_div_natCast_nonneg n d hn
  · have h1 : (n : ℚ) / (d : ℚ) = -(((-n : ℤ) : ℚ) / (d : ℚ)) := by
      push_cast
      ring
    rw [h1, truncQ_neg, truncQ_intCast_div_natCast_nonneg (-n) d (by omega)]
    rw [Int.neg_tdiv, neg_neg]

/-- The integer millisecond formula of the embedded processLine equals
the truncation of (minutes * 60 + seconds) * 1000 over the exact
rationals. -/
theorem processLine_ms_eq (M num : ℤ) (k : ℕ) :
    Int.tdiv ((M * 60 * (10 ^ k : ℤ) + num) * 1000) (10 ^ k : ℤ)
      = truncQ (((M : ℚ) * 60 + (num : ℚ) / (10 : ℚ) ^ k) * 1000) := by
  have h10 : ((10 ^ k : ℕ) : ℤ) = (10 ^ k : ℤ) := by push_cast; ring
  rw [← h10]
  rw [← truncQ_intCast_div_natCast ((M * 60 * ((10 ^ k : ℕ) : ℤ) + num) * 1000) (10 ^ k)]
  congr 1
  have hd : ((10 : ℚ)) ^ k ≠ 0 := by positivity
  push_cast
  field_simp

/-! ## Lemmas about processLine on structured lines -/

/-- The lyricSplit loop body on a well-formed timestamped line whose
minutes field starts with a digit 0 to 3: the bracket is parsed, all
bracketed groups are removed from the text, and the timestamp is
converted to truncated milliseconds. -/
theorem processLine_timestamped (m s1 s2 text : List Char)
    (hm_ne : m ≠ []) (hm : ∀ c ∈ m, c.isDigit = true)
    (hhead : m.headD ' ' = '0' ∨ m.headD ' ' = '1' ∨ m.headD ' ' = '2' ∨ m.headD ' ' = '3')
    (hs1 : ∀ c ∈ s1, c.isDigit = true) (hs2 : ∀ c ∈ s2, c.isDigit = true)
    (hsne : s1 ≠ [] ∨ s2 ≠ [])
    (htext : ∀ c ∈ text, c ≠ '[' ∧ c ≠ ']')
    (hstrip : stripChars text ≠ []) :
    processLine ('[' :: m ++ ':' :: s1 ++ '.' :: s2 ++ ']' :: text)
      = some (Int.tdiv (((digitsToNat m : ℤ) * 60 * (10 ^ s2.length : ℤ)
            + ((digitsToNat s1 * 10 ^ s2.length + digitsToNat s2 : ℕ) : ℤ)) * 1000)
          (10 ^ s2.length : ℤ), stripChars text) := by
  obtain ⟨mc, m', rfl⟩ : ∃ mc m', m = mc :: m' := by
    cases m with
    | nil => exact absurd rfl hm_ne
    | cons mc m' => exact ⟨mc, m', rfl⟩
  have hcontent : ∀ x ∈ (mc :: m') ++ (':' :: s1 ++ '.' :: s2), x ≠ ']' := by
    intro x hx
    simp only [List.mem_append, List.mem_cons, List.cons_append] at hx
    rcases hx with rfl | hx | rfl | hx | rfl | hx
    · exact (digit_char_facts _ (hm _ (List.mem_cons_self _ _))).2.1
    · exact (digit_char_facts _ (hm _ (List.mem_cons_of_mem _ hx))).2.1
    · decide
    · exact (digit_char_facts _ (hs1 _ hx)).2.1
    · decide
    · exact (digit_char_facts _ (hs2 _ hx)).2.1
  have hbm := bracketMatch_append ((mc :: m') ++ (':' :: s1 ++ '.' :: s2)) text
    (by simp) hcontent
  have hrb := removeBrackets_bracket_line ((mc :: m') ++ (':' :: s1 ++ '.' :: s2)) text
    (by simp) hcontent (fun x hx => (htext x hx).1)
  have hsplit : splitOnChar ':' ((mc :: m') ++ ':' :: (s1 ++ '.' :: s2))
      = [mc :: m', s1 ++ '.' :: s2] := by
    apply splitOnChar_pair
    · intro c hc
      exact (digit_char_facts c (hm c hc)).2.2.1
    · intro c hc
      rcases List.mem_append.mp hc with h | h
      · exact (digit_char_facts c (hs1 c h)).2.2.1
      · rcases List.mem_cons.mp h with rfl | h
        · decide
        · exact (digit_char_facts c (hs2 c h)).2.2.1
  have hmc : mc = '0' ∨ mc = '1' ∨ mc = '2' ∨ mc = '3' := by
    simpa using hhead
  simp only [List.cons_append, List.append_assoc] at hbm hrb hsplit ⊢
  simp only [processLine]
  rw [if_pos hmc]
  simp only [hbm]
  rw [hrb, if_neg hstrip]
  simp only [hsplit]
  simp only [parseIntPy_digits (mc :: m') (by simp) hm,
    parseFloatPy_frac s1 s2 hs1 hs2 hsne]

/-- The lyricSplit loop body skips every line whose bracket does not open
with a digit 0 to 3. -/
theorem processLine_not_low_digit (c : Char) (rest : List Char)
    (h : ¬(c = '0' ∨ c = '1' ∨ c = '2' ∨ c = '3')) :
    processLine ('[' :: c :: rest) = none := by
  simp only [processLine]
  rw [if_neg h]

/-! ## Lemmas about the scan loops -/

theorem scanPairsAux_succ (P : ℚ → ℚ → Bool) (prev : ℚ) (rest : List ℚ) (i : Nat) :
    scanPairsAux P prev rest (i + 1) = (scanPairsAux P prev rest i).map (· + 1) := by
  induction rest generalizing prev i with
  | nil => rfl
  | cons c rest ih =>
      simp only [scanPairsAux]
      by_cases h : P prev c
      · simp [h]
      · simp [h, ih]

theorem scanPairs_cons_cons (P : ℚ → ℚ → Bool) (a b : ℚ) (rest : List ℚ) :
    scanPairs P (a :: b :: rest) =
      if P a b then some 1 else (scanPairs P (b :: rest)).map (· + 1) := by
  simp only [scanPairs, scanPairsAux]
  by_cases h : P a b
  · simp [h]
  · simp [h, scanPairsAux_succ]

/-- Soundness of the scan loop: a returned index is in range and its
adjacent pair satisfies the predicate. -/
theorem scanPairs_some (P : ℚ → ℚ → Bool) :
    ∀ (t : List ℚ) (i : Nat), scanPairs P t = some i →
      1 ≤ i ∧ i < t.length ∧ P (t.getD (i - 1) 0) (t.getD i 0) = true := by
  intro t
  induction t with
  | nil => intro i h; simp [scanPairs] at h
  | cons a t ih =>
      cases t with
      | nil => intro i h; simp [scanPairs, scanPairsAux] at h
      | cons b rest =>
          intro i h
          rw [scanPairs_cons_cons] at h
          cases hPab : P a b with
          | true =>
              rw [hPab] at h
              simp at h
              subst h
              refine ⟨le_refl 1, by simp, ?_⟩
              simpa [List.getD_cons_zero, List.getD_cons_succ] using hPab
          | false =>
              rw [hPab] at h
              simp only [Bool.false_eq_true, if_false, Option.map_eq_some'] at h
              obtain ⟨j, hj, rfl⟩ := h
              obtain ⟨h1, h2, h3⟩ := ih j hj
              obtain ⟨k, rfl⟩ : ∃ k, j = k + 1 := ⟨j - 1, by omega⟩
              refine ⟨by omega, ?_, ?_⟩
              · simp only [List.length_cons] at h2 ⊢
                omega
              · have e1 : k + 1 + 1 - 1 = k + 1 := by omega
                have e2 : k + 1 - 1 = k := by omega
                rw [e1]
                rw [e2] at h3
                simpa [List.getD_cons_succ] using h3

/-- The scan loop returns the first satisfying index. -/
theorem scanPairs_first (P : ℚ → ℚ → Bool) :
    ∀ (t : List ℚ) (i : Nat), 1 ≤ i → i < t.length →
      P (t.getD (i - 1) 0) (t.getD i 0) = true →
      (∀ j, 1 ≤ j → j < i → P (t.getD (j - 1) 0) (t.getD j 0) = false) →
      scanPairs P t = some i := by
  intro t
  induction t with
  | nil => intro i h1 h2 _ _; simp at h2
  | cons a t ih =>
      cases t with
      | nil => intro i h1 h2 _ _; simp at h2; omega
      | cons b rest =>
          intro i h1 h2 hP hmin
          rw [scanPairs_cons_cons]
          by_cases hi : i = 1
          · subst hi
            have : P a b = true := by
              simpa [List.getD_cons_zero, List.getD_cons_succ] using hP
            simp [this]
          · have hfirst : P a b = false := by
              have := hmin 1 (le_refl 1) (by omega)
              simpa [List.getD_cons_zero, List.getD_cons_succ] using this
            rw [hfirst]
            simp only [Bool.false_eq_true, if_false]
            obtain ⟨k, rfl⟩ : ∃ k, i = k + 1 := ⟨i - 1, by omega⟩
            have hk : scanPairs P (b :: rest) = some k := by
              apply ih k (by omega) (by simp at h2 ⊢; omega)
              · have e1 : k + 1 - 1 = k := by omega
                rw [e1] at hP
                obtain ⟨m, rfl⟩ : ∃ m, k = m + 1 := ⟨k - 1, by omega⟩
                have e2 : m + 1 - 1 = m := by omega
                rw [e2]
                simpa [List.getD_cons_succ] using hP
              · intro j hj hjk
                obtain ⟨m, rfl⟩ : ∃ m, j = m + 1 := ⟨j - 1, by omega⟩
                have := hmin (m + 1 + 1) (by omega) (by omega)
                have e1 : m + 1 + 1 - 1 = m + 1 := by omega
                have e2 : m + 1 - 1 = m := by omega
                rw [e1] at this
                rw [e2]
                simpa [List.getD_cons_succ] using this
            simp [hk]

/-- If no adjacent pair satisfies the predicate, the scan returns none. -/
theorem scanPairs_none (P : ℚ → ℚ → Bool) :
    ∀ (t : List ℚ),
      (∀ j, 1 ≤ j → j < t.length → P (t.getD (j - 1) 0) (t.getD j 0) = false) →
      scanPairs P t = none := by
  intro t
  induction t with
  | nil => intro _; rfl
  | cons a t ih =>
      cases t with
      | nil => intro _; rfl
      | cons b rest =>
          intro hmin
          rw [scanPairs_cons_cons]
          have hfirst : P a b = false := by
            have := hmin 1 (le_refl 1) (by simp)
            simpa [List.getD_cons_zero, List.getD_cons_succ] using this
          rw [hfirst]
          simp only [Bool.false_eq_true, if_false]
          have hnone : scanPairs P (b :: rest) = none := by
            apply ih
            intro j hj hjlen
            obtain ⟨m, rfl⟩ : ∃ m, j = m + 1 := ⟨j - 1, by omega⟩
            have := hmin (m + 1 + 1) (by omega) (by simp at hjlen ⊢; omega)
            have e1 : m + 1 + 1 - 1 = m + 1 := by omega
            have e2 : m + 1 - 1 = m := by omega
            rw [e1] at this
            rw [e2]
            simpa [List.getD_cons_succ] using this
          simp [hnone]

/-- A non-decreasing timeline compares correctly through getD. -/
theorem pairwise_getD_le (t : List ℚ) (h : t.Pairwise (· ≤ ·)) :
    ∀ j k, j ≤ k → k < t.length → t.getD j 0 ≤ t.getD k 0 := by
  intro j k hjk hk
  rcases Nat.eq_or_lt_of_le hjk with rfl | hlt
  · exact le_refl _
  · have hj : j < t.length := lt_trans hlt hk
    rw [List.getD_eq_getElem t 0 hj, List.getD_eq_getElem t 0 hk]
    exact List.pairwise_iff_get.mp h ⟨j, hj⟩ ⟨k, hk⟩ hlt

/-- Soundness of the boundary search. -/
theorem findLine_some (t : List ℚ) (pos : ℚ) (i : Nat)
    (h : findLine t pos = some i) :
    1 ≤ i ∧ i < t.length ∧ t.getD (i - 1) 0 ≤ pos ∧ pos < t.getD i 0 := by
  obtain ⟨h1, h2, h3⟩ := scanPairs_some _ t i h
  simp only [Bool.and_eq_true, decide_eq_true_eq] at h3
  exact ⟨h1, h2, h3.1, h3.2⟩

/-- Completeness of the boundary search on a non-decreasing timeline: the
matching interval is found (it is automatically the first one). -/
theorem findLine_eq_some (t : List ℚ) (pos : ℚ) (i : Nat)
    (hmono : t.Pairwise (· ≤ ·)) (h1 : 1 ≤ i) (h2 : i < t.length)
    (hlo : t.getD (i - 1) 0 ≤ pos) (hhi : pos < t.getD i 0) :
    findLine t pos = some i := by
  apply scanPairs_first
  · exact h1
  · exact h2
  · simp only [Bool.and_eq_true, decide_eq_true_eq]
    exact ⟨hlo, hhi⟩
  · intro j hj hji
    have hle : t.getD j 0 ≤ t.getD (i - 1) 0 :=
      pairwise_getD_le t hmono j (i - 1) (by omega) (by omega)
    have : ¬ pos < t.getD j 0 := not_lt.mpr (le_trans hle hlo)
    simp only [Bool.and_eq_false_iff, decide_eq_false_iff_not]
    right
    exact this

/-- Before the first timestamp the boundary search finds nothing. -/
theorem findLine_none_of_lt_head (t : List ℚ) (pos : ℚ)
    (hmono : t.Pairwise (· ≤ ·)) (h : pos < t.getD 0 0) :
    findLine t pos = none := by
  apply scanPairs_none
  intro j hj hjlen
  have h0 : t.getD 0 0 ≤ t.getD (j - 1) 0 :=
    pairwise_getD_le t hmono 0 (j - 1) (by omega) (by omega)
  have : ¬ t.getD (j - 1) 0 ≤ pos := not_le.mpr (lt_of_lt_of_le h h0)
  simp only [Bool.and_eq_false_iff, decide_eq_false_iff_not]
  left
  exact this

/-- At or past the last timestamp the boundary search finds nothing. -/
theorem findLine_none_of_ge_last (t : List ℚ) (pos : ℚ)
    (hmono : t.Pairwise (· ≤ ·)) (h : t.getD (t.length - 1) 0 ≤ pos) :
    findLine t pos = none := by
  apply scanPairs_none
  intro j hj hjlen
  have hj' : t.getD j 0 ≤ t.getD (t.length - 1) 0 :=
    pairwise_getD_le t hmono j (t.length - 1) (by omega) (by omega)
  have : ¬ pos < t.getD j 0 := not_lt.mpr (le_trans hj' h)
  simp only [Bool.and_eq_false_iff, decide_eq_false_iff_not]
  right
  exact this

/-- Completeness of the radio-source priming search: the first timeline
entry strictly inside the look-ahead window is found. -/
theorem findUpcoming_eq_some (t : List ℚ) (pos : ℚ) (i : Nat)
    (h1 : 1 ≤ i) (h2 : i < t.length)
    (hlo : pos < t.getD (i - 1) 0) (hhi : t.getD (i - 1) 0 < pos + 10000)
    (hmin : ∀ j, 1 ≤ j → j < i →
      ¬ (pos < t.getD (j - 1) 0 ∧ t.getD (j - 1) 0 < pos + 10000)) :
    findUpcoming t pos = some i := by
  apply scanPairs_first
  · exact h1
  · exact h2
  · simp only [Bool.and_eq_true, decide_eq_true_eq]
    exact ⟨hlo, hhi⟩
  · intro j hj hji
    have := hmin j hj hji
    simp only [Bool.and_eq_false_iff, decide_eq_false_iff_not]
    by_cases hc : pos < t.getD (j - 1) 0
    · right
      intro hcon
      exact this ⟨hc, hcon⟩
    · left
      exact hc

/-! ## Auxiliary evaluation lemmas for witnesses -/

theorem truncQ_intCast (n : ℤ) : truncQ ((n : ℤ) : ℚ) = n := by
  unfold truncQ
  rw [Rat.num_intCast, Rat.den_intCast]
  exact Int.tdiv_one n

/-- Concrete two-line session state used by witnesses: timeline
[1000, 2000] ms, lines A and B, with a chosen current index. -/
def witnessState (idx : Int) : SyncState :=
  { active := true, media_tracker := true, timeline := [1000, 2000],
    lyrics := ["A", "B"], current_line_index := idx }

/-- Concrete one-line session state used by witnesses. -/
def witnessState1 : SyncState :=
  { active := true, media_tracker := true, timeline := [1000],
    lyrics := ["A"], current_line_index := -1 }

/-! ## The claims -/

/-- Claim C8: parsing the raw text with the two timestamped lines 00:01.50
and 00:03.00 yields exactly the timeline [1500, 3000] and the lines
[Hello, World], in order and of equal length. -/
theorem claim_C8_roundtrip :
    lyricSplit "[00:01.50]Hello\n[00:03.00]World" = ([1500, 3000], ["Hello", "World"])
    ∧ (lyricSplit "[00:01.50]Hello\n[00:03.00]World").1.length
        = (lyricSplit "[00:01.50]Hello\n[00:03.00]World").2.length := by
  decide

/-- Claim C6 counterexample: lyricSplit keeps the input order of
timestamps and never sorts, so the raw text with timestamps 2000 ms
followed by 1000 ms produces the decreasing timeline [2000, 1000],
refuting the claim that the returned timeline is non-decreasing for every
raw input. -/
theorem claim_C6_counterexample :
    lyricSplit "[00:02.00]B\n[00:01.00]A" = ([2000, 1000], ["B", "A"])
    ∧ ¬ (lyricSplit "[00:02.00]B\n[00:01.00]A").1.Pairwise (· ≤ ·) := by
  decide

/-- Claim C6 (amended): the timeline returned by lyricSplit is exactly
the per-line parsed offsets in input order (no sorting or enforcement
happens), and it is therefore non-decreasing precisely when the parsed
timestamps appear in non-decreasing order in the raw text. -/
theorem claim_C6_timeline_order (s : String) :
    (lyricSplit s).1 = (splitlines s.data).filterMap (fun l => (processLine l).map Prod.fst)
    ∧ (((splitlines s.data).filterMap (fun l => (processLine l).map Prod.fst)).Pairwise (· ≤ ·) →
        (lyricSplit s).1.Pairwise (· ≤ ·)) := by
  refine ⟨lyricSplitLines_timeline _, ?_⟩
  intro h
  rw [show (lyricSplit s).1 = _ from lyricSplitLines_timeline _]
  exact h

theorem claim_C6_timeline_order_witness :
    (lyricSplit "[00:01.00]A\n[00:02.00]B").1.Pairwise (· ≤ ·) :=
  (claim_C6_timeline_order "[00:01.00]A\n[00:02.00]B").2 (by decide)

/-- Claim C5 counterexample: the line bears a leading [MM:SS.xx]
timestamp bracket (minutes 40) with non-empty remaining text, so the
claim requires it to be parsed into ([2400000], [Hello]); the code skips
every line whose bracket does not open with a digit 0 to 3, returning
([], []). -/
theorem claim_C5_counterexample :
    lyricSplit "[40:00.00]Hello" = ([], [])
    ∧ lyricSplit "[40:00.00]Hello" ≠ ([2400000], ["Hello"]) := by
  decide

/-- Claim C5 (amended): the conversion step parses exactly those lines
bearing a leading timestamp bracket whose minutes field starts with a
digit 0 to 3, strips every bracketed group, discards lines whose
remaining text is empty, and converts the timestamp to milliseconds as
(minutes * 60 + seconds) * 1000 truncated to an integer; a line that
fails these checks (in particular a malformed timestamp) is skipped
without affecting the surrounding lines. The positive part is stated on
the domain where CPython evaluates this formula exactly: with at most
four fractional digits whose value is divisible by 5^k (so the seconds
value is a dyadic rational) and minute and whole-second fields at most
10^6, every IEEE binary64 intermediate of the Python code - the float()
parse of the seconds string, the coercion of the integer minute term,
their sum, the product with 1000 and the final int() truncation - is
exactly representable (all numerators stay far below 2^53), so the
double computation coincides with the exact rational arithmetic proved
here. -/
theorem claim_C5_conversion_rule :
    (∀ m s1 s2 text : List Char,
        m ≠ [] → (∀ c ∈ m, c.isDigit = true) →
        (m.headD ' ' = '0' ∨ m.headD ' ' = '1' ∨ m.headD ' ' = '2' ∨ m.headD ' ' = '3') →
        (∀ c ∈ s1, c.isDigit = true) → (∀ c ∈ s2, c.isDigit = true) →
        (s1 ≠ [] ∨ s2 ≠ []) →
        s2.length ≤ 4 → 5 ^ s2.length ∣ digitsToNat s2 →
        digitsToNat m ≤ 1000000 → digitsToNat s1 ≤ 1000000 →
        (∀ c ∈ text, c ≠ '[' ∧ c ≠ ']' ∧ isLineBreak c = false) →
        stripChars text ≠ [] →
        lyricSplit (String.mk ('[' :: m ++ ':' :: s1 ++ '.' :: s2 ++ ']' :: text))
          = ([truncQ (((digitsToNat m : ℚ) * 60
                + ((digitsToNat s1 : ℚ) + (digitsToNat s2 : ℚ) / (10 : ℚ) ^ s2.length)) * 1000)],
             [String.mk (stripChars text)]))
    ∧ (∀ (c : Char) (rest : List Char),
        ¬(c = '0' ∨ c = '1' ∨ c = '2' ∨ c = '3') →
        (∀ x ∈ c :: rest, isLineBreak x = false) →
        lyricSplit (String.mk ('[' :: c :: rest)) = ([], []))
    ∧ (∀ l1 l2 : List Char,
        (∀ c ∈ l1, isLineBreak c = false) → (∀ c ∈ l2, isLineBreak c = false) →
        lyricSplit (String.mk (l1 ++ '\n' :: l2))
          = ((lyricSplit (String.mk l1)).1 ++ (lyricSplit (String.mk l2)).1,
             (lyricSplit (String.mk l1)).2 ++ (lyricSplit (String.mk l2)).2)) := by
  refine ⟨?_, ?_, ?_⟩
  · intro m s1 s2 text hm_ne hm hhead hs1 hs2 hsne _hfd _hdyadic _hmb _hsb htext hstrip
    have hline : ∀ c ∈ ('[' :: m ++ ':' :: s1 ++ '.' :: s2 ++ ']' :: text),
        isLineBreak c = false := by
      intro x hx
      rcases List.mem_cons.mp hx with rfl | hx
      · decide
      rcases List.mem_append.mp hx with hx | hx
      · rcases List.mem_append.mp hx with hx | hx
        · rcases List.mem_append.mp hx with hx | hx
          · exact (digit_char_facts _ (hm _ hx)).2.2.2.2.1
          · rcases List.mem_cons.mp hx with rfl | hx
            · decide
            · exact (digit_char_facts _ (hs1 _ hx)).2.2.2.2.1
        · rcases List.mem_cons.mp hx with rfl | hx
          · decide
          · exact (digit_char_facts _ (hs2 _ hx)).2.2.2.2.1
      · rcases List.mem_cons.mp hx with rfl | hx
        · decide
        · exact (htext _ hx).2.2
    unfold lyricSplit
    rw [show (String.mk ('[' :: m ++ ':' :: s1 ++ '.' :: s2 ++ ']' :: text)).data
        = '[' :: m ++ ':' :: s1 ++ '.' :: s2 ++ ']' :: text from rfl]
    rw [splitlines_single _ hline]
    rw [if_neg (by simp)]
    rw [show lyricSplitLines ['[' :: m ++ ':' :: s1 ++ '.' :: s2 ++ ']' :: text]
        = (match processLine ('[' :: m ++ ':' :: s1 ++ '.' :: s2 ++ ']' :: text) with
           | some p => ([p.1], [String.mk p.2])
           | none => ([], [])) from by
      simp only [lyricSplitLines]]
    rw [processLine_timestamped m s1 s2 text hm_ne hm hhead hs1 hs2 hsne
      (fun c hc => ⟨(htext c hc).1, (htext c hc).2.1⟩) hstrip]
    rw [processLine_ms_eq]
    have hd : ((10 : ℚ)) ^ s2.length ≠ 0 := by positivity
    have harith : ((((digitsToNat m : ℤ)) : ℚ) * 60
          + (((digitsToNat s1 * 10 ^ s2.length + digitsToNat s2 : ℕ) : ℤ) : ℚ)
              / (10 : ℚ) ^ s2.length) * 1000
        = ((digitsToNat m : ℚ) * 60
            + ((digitsToNat s1 : ℚ) + (digitsToNat s2 : ℚ) / (10 : ℚ) ^ s2.length)) * 1000 := by
      push_cast
      field_simp
    rw [harith]
  · intro c rest hnotlow hnl
    unfold lyricSplit
    rw [show (String.mk ('[' :: c :: rest)).data = '[' :: c :: rest from rfl]
    rw [splitlines_single ('[' :: c :: rest) (by
      intro x hx
      rcases List.mem_cons.mp hx with rfl | hx
      · decide
      · exact hnl x hx)]
    rw [if_neg (by simp)]
    rw [show lyricSplitLines ['[' :: c :: rest]
        = (match processLine ('[' :: c :: rest) with
           | some p => ([p.1], [String.mk p.2])
           | none => ([], [])) from by
      simp only [lyricSplitLines]]
    rw [processLine_not_low_digit c rest hnotlow]
  · intro l1 l2 h1 h2
    unfold lyricSplit
    rw [show (String.mk (l1 ++ '\n' :: l2)).data = l1 ++ '\n' :: l2 from rfl]
    rw [show (String.mk l1).data = l1 from rfl]
    rw [show (String.mk l2).data = l2 from rfl]
    rw [splitlines_append_lf l1 l2 h1]
    have e1 : lyricSplitLines (splitlines l1) = lyricSplitLines [l1] := by
      rw [splitlines_single l1 h1]
      by_cases h : l1 = []
      · subst h
        rfl
      · rw [if_neg h]
    rw [show (l1 :: splitlines l2) = [l1] ++ splitlines l2 from rfl]
    rw [lyricSplitLines_append [l1] (splitlines l2)]
    rw [e1]

theorem claim_C5_conversion_rule_witness :
    lyricSplit (String.mk ('[' :: ['0', '1'] ++ ':' :: ['0', '2'] ++ '.' :: ['5'] ++ ']' :: ['H', 'i']))
      = ([62500], ["Hi"]) := by
  have h := claim_C5_conversion_rule.1 ['0', '1'] ['0', '2'] ['5'] ['H', 'i']
    (by decide) (by decide) (by decide) (by decide) (by decide) (by decide)
    (by decide) (by decide) (by decide) (by decide) (by decide) (by decide)
  rw [h]
  have e1 : digitsToNat ['0', '1'] = 1 := by decide
  have e2 : digitsToNat ['0', '2'] = 2 := by decide
  have e3 : digitsToNat ['5'] = 5 := by decide
  have harith : ((digitsToNat ['0', '1'] : ℚ) * 60
      + ((digitsToNat ['0', '2'] : ℚ) + (digitsToNat ['5'] : ℚ) / (10 : ℚ) ^ (['5'] : List Char).length)) * 1000
      = ((62500 : ℤ) : ℚ) := by
    rw [e1, e2, e3]
    norm_num
  rw [harith, truncQ_intCast]
  decide

/-- Claim C2 counterexample: the try/except of _force_update_task wraps
the whole while loop, so after an iteration raises a non-cancellation
exception the task ends in the except handler having entered only that
one iteration; the pending ok-cycle never runs, refuting the claim that
the loop keeps running subsequent cycles. -/
theorem claim_C2_counterexample :
    force_update_task_run [IterResult.raise, IterResult.ok] = (1, TaskExit.caughtExn) := by
  decide

/-- Claim C2 (amended): an exception other than cancellation raised during
one iteration of the watchdog loop is caught (it never escapes the task)
and logged, but it terminates the loop: however many iterations were still
pending, execution stops right after the raising iteration and the task
ends in the generic except handler. -/
theorem claim_C2_watchdog_exception (pre post : List IterResult)
    (hpre : ∀ x ∈ pre, x = IterResult.ok) :
    force_update_task_run (pre ++ IterResult.raise :: post)
      = (pre.length + 1, TaskExit.caughtExn) := by
  induction pre with
  | nil => rfl
  | cons x rest ih =>
      have hx : x = IterResult.ok := hpre x (by simp)
      subst hx
      rw [List.cons_append]
      show (let r := force_update_task_run (rest ++ IterResult.raise :: post);
        (r.1 + 1, r.2)) = _
      rw [ih (fun y hy => hpre y (by simp [hy]))]
      simp

theorem claim_C2_watchdog_exception_witness :
    force_update_task_run [IterResult.ok, IterResult.raise] = (2, TaskExit.caughtExn) :=
  claim_C2_watchdog_exception [IterResult.ok] [] (by decide)

/-- A tick whose resolved interval index equals the stored current line
index leaves the state untouched and pushes nothing. -/
theorem update_noop_of_resolved_eq (s : SyncState) (p : ℚ) (i : Nat)
    (hmono : s.timeline.Pairwise (· ≤ ·))
    (hfl : findLine s.timeline (p * 1000) = some i)
    (heq : (i : Int) - 1 = s.current_line_index) :
    update_lyrics_display s p = (s, []) := by
  by_cases hg : s.active = false ∨ s.timeline = [] ∨ s.lyrics = []
  · simp only [update_lyrics_display, if_pos hg]
  · obtain ⟨h1, h2, hlo, hhi⟩ := findLine_some _ _ _ hfl
    have hstop : ¬ (s.timeline.getD (s.timeline.length - 1) 0 ≤ p * 1000) :=
      not_le.mpr (lt_of_lt_of_le hhi
        (pairwise_getD_le _ hmono i (s.timeline.length - 1) (by omega) (by omega)))
    simp only [update_lyrics_display, if_neg hg, if_neg hstop, hfl]
    rw [if_neg (not_not.mpr heq)]

theorem runTicks_noop (s : SyncState) : ∀ ps : List ℚ,
    (∀ p ∈ ps, ∃ i, findLine s.timeline (p * 1000) = some i
        ∧ (i : Int) - 1 = s.current_line_index) →
    s.timeline.Pairwise (· ≤ ·) →
    runTicks s ps = (s, []) := by
  intro ps
  induction ps with
  | nil => intro _ _; rfl
  | cons p ps ih =>
      intro hres hmono
      obtain ⟨i, hfl, heq⟩ := hres p (by simp)
      have h1 := update_noop_of_resolved_eq s p i hmono hfl heq
      simp [runTicks, h1, ih (fun q hq => hres q (by simp [hq])) hmono]

/-- Claim C3: for a sequence of ticks each resolving to the stored
current line index, the tick path pushes nothing and leaves the state
unchanged; moreover any tick that does push to the sink either changed
the current line index or terminated the session. -/
theorem claim_C3_monotonic_idempotence (s : SyncState) (ps : List ℚ)
    (hmono : s.timeline.Pairwise (· ≤ ·))
    (hres : ∀ p ∈ ps, ∃ i, findLine s.timeline (p * 1000) = some i
        ∧ (i : Int) - 1 = s.current_line_index) :
    runTicks s ps = (s, [])
    ∧ (∀ p : ℚ, (update_lyrics_display s p).2 ≠ [] →
        ((update_lyrics_display s p).1.current_line_index ≠ s.current_line_index ∨
         (update_lyrics_display s p).1.active = false)) := by
  refine ⟨runTicks_noop s ps hres hmono, ?_⟩
  intro p hpush
  by_cases hg : s.active = false ∨ s.timeline = [] ∨ s.lyrics = []
  · exact absurd (by simp [update_lyrics_display, hg]) hpush
  · have hact : s.active = true := by
      cases hb : s.active
      · exact absurd (Or.inl hb) hg
      · rfl
    simp only [update_lyrics_display, if_neg hg] at hpush ⊢
    by_cases hstop : s.timeline.getD (s.timeline.length - 1) 0 ≤ p * 1000
    · rw [if_pos hstop] at hpush ⊢
      right
      simp [stop, hact]
    · rw [if_neg hstop] at hpush ⊢
      rcases hfl : findLine s.timeline (p * 1000) with _ | i
      · simp only [hfl] at hpush ⊢
        by_cases hlt : p * 1000 < s.timeline.getD 0 0
        · rw [if_pos hlt] at hpush ⊢
          by_cases hne : s.current_line_index ≠ -1
          · rw [if_pos hne] at hpush ⊢
            left
            simpa using Ne.symm hne
          · rw [if_neg hne] at hpush
            exact absurd rfl hpush
        · rw [if_neg hlt] at hpush
          exact absurd rfl hpush
      · simp only [hfl] at hpush ⊢
        by_cases hne : (i : Int) - 1 ≠ s.current_line_index
        · rw [if_pos hne] at hpush ⊢
          left
          simpa using hne
        · rw [if_neg hne] at hpush
          exact absurd rfl hpush

theorem claim_C3_monotonic_idempotence_witness :
    runTicks (witnessState 0) [3/2, 8/5] = (witnessState 0, []) := by
  refine (claim_C3_monotonic_idempotence _ _ (by decide) ?_).1
  intro p hp
  simp only [List.mem_cons, List.not_mem_nil, or_false] at hp
  rcases hp with rfl | rfl
  · refine ⟨1, ?_, by decide⟩
    have e : (3 / 2 : ℚ) * 1000 = 1500 := by norm_num
    rw [e]
    decide
  · refine ⟨1, ?_, by decide⟩
    have e : (8 / 5 : ℚ) * 1000 = 1600 := by norm_num
    rw [e]
    decide

/-- Claim C9: stop on an active session deactivates it, stops and
releases the media tracker, and pushes the empty triple to clear the
sink; stop while idle is a no-op that changes nothing and pushes
nothing; hence stop composed with itself equals a single stop. -/
theorem claim_C9_stop_idempotent (s : SyncState) :
    (s.active = true →
        stop s = ({ s with active := false, media_tracker := false }, [("", "", "")]))
    ∧ (s.active = false → stop s = (s, []))
    ∧ stop (stop s).1 = ((stop s).1, []) := by
  refine ⟨?_, ?_, ?_⟩
  · intro hact
    simp [stop, hact]
  · intro hact
    simp [stop, hact]
  · cases hact : s.active <;> simp [stop, hact]

theorem claim_C9_stop_idempotent_witness :
    stop witnessState1
      = ({ witnessState1 with active := false, media_tracker := false }, [("", "", "")]) :=
  (claim_C9_stop_idempotent witnessState1).1 rfl

/-- Claim C10: tick resolution never assigns the last line index: if the
stored index satisfies the invariant of being -1 or at most n - 2, then
after any tick it still does, because an interval match yields an index
i - 1 with i < n and every other path leaves the index at -1 or
unchanged. -/
theorem claim_C10_last_line_not_current (s : SyncState) (p : ℚ)
    (hn : 1 ≤ s.timeline.length)
    (hinv : s.current_line_index = -1 ∨ s.current_line_index + 2 ≤ (s.timeline.length : Int)) :
    (update_lyrics_display s p).1.current_line_index = -1 ∨
      (update_lyrics_display s p).1.current_line_index + 2 ≤ (s.timeline.length : Int) := by
  by_cases hg : s.active = false ∨ s.timeline = [] ∨ s.lyrics = []
  · simpa [update_lyrics_display, hg] using hinv
  · simp only [update_lyrics_display, if_neg hg]
    by_cases hstop : s.timeline.getD (s.timeline.length - 1) 0 ≤ p * 1000
    · rw [if_pos hstop]
      unfold stop
      by_cases hact : s.active = false
      · rw [if_pos hact]
        exact hinv
      · rw [if_neg hact]
        simpa using hinv
    · rw [if_neg hstop]
      rcases hfl : findLine s.timeline (p * 1000) with _ | i
      · simp only [hfl]
        by_cases hlt : p * 1000 < s.timeline.getD 0 0
        · rw [if_pos hlt]
          by_cases hne : s.current_line_index ≠ -1
          · rw [if_pos hne]
            left
            rfl
          · rw [if_neg hne]
            exact hinv
        · rw [if_neg hlt]
          exact hinv
      · simp only [hfl]
        obtain ⟨h1, h2, _, _⟩ := findLine_some _ _ _ hfl
        by_cases hne : (i : Int) - 1 ≠ s.current_line_index
        · rw [if_pos hne]
          right
          show (i : Int) - 1 + 2 ≤ (s.timeline.length : Int)
          omega
        · rw [if_neg hne]
          exact hinv

theorem claim_C10_last_line_not_current_witness :
    (update_lyrics_display (witnessState (-1)) (3/2)).1.current_line_index = -1 ∨
      (update_lyrics_display (witnessState (-1)) (3/2)).1.current_line_index + 2
        ≤ ((witnessState (-1)).timeline.length : Int) :=
  claim_C10_last_line_not_current (witnessState (-1)) (3/2) (by decide) (Or.inl rfl)

/-- Claim C1 counterexample: with an active session, the non-decreasing
timeline [1000, 2000], parallel lines, the stored index already -1 and a
tick at 0.5 s (500 ms, before t[0] = 1000), the claim requires a push of
the waiting placeholder, but the code pushes only when the index was not
already -1: nothing is pushed. -/
theorem claim_C1_counterexample :
    (update_lyrics_display (witnessState (-1)) (1/2)).2 = [] := by
  have e : (1 / 2 : ℚ) * 1000 = 500 := by norm_num
  simp only [witnessState, update_lyrics_display, e]
  decide

/-- Claim C1 (amended): for an active session with non-decreasing
timeline and parallel lines, a tick at p seconds behaves as follows.  If
t[i-1] <= p * 1000 < t[i], the index becomes i - 1 and, exactly when that
differs from the stored index, the triple with out-of-range neighbours
blanked is pushed.  If p * 1000 < t[0], the index becomes -1 and, exactly
when the stored index was not already -1, the waiting placeholder is
pushed.  If p * 1000 >= t[n-1], the session is terminated via stop,
clearing the sink. -/
theorem claim_C1_boundary_resolution (s : SyncState) (p : ℚ)
    (hact : s.active = true)
    (hmono : s.timeline.Pairwise (· ≤ ·))
    (hlen : s.lyrics.length = s.timeline.length)
    (hn : 1 ≤ s.timeline.length) :
    (∀ i, 1 ≤ i → i < s.timeline.length →
        s.timeline.getD (i - 1) 0 ≤ p * 1000 → p * 1000 < s.timeline.getD i 0 →
        (update_lyrics_display s p).1.current_line_index = (i : Int) - 1 ∧
        (update_lyrics_display s p).2 =
          (if (i : Int) - 1 ≠ s.current_line_index then [tripleAt s.lyrics i] else []))
    ∧ (p * 1000 < s.timeline.getD 0 0 →
        (update_lyrics_display s p).1.current_line_index = -1 ∧
        (update_lyrics_display s p).2 =
          (if s.current_line_index ≠ -1 then
            [("", "Waiting for first line...", s.lyrics.getD 0 "")]
           else []))
    ∧ (s.timeline.getD (s.timeline.length - 1) 0 ≤ p * 1000 →
        (update_lyrics_display s p).1.active = false ∧
        (update_lyrics_display s p).2 = [("", "", "")]) := by
  have hg : ¬ (s.active = false ∨ s.timeline = [] ∨ s.lyrics = []) := by
    push_neg
    refine ⟨by simp [hact], ?_, ?_⟩
    · exact List.ne_nil_of_length_pos (by omega)
    · exact List.ne_nil_of_length_pos (by omega)
  refine ⟨?_, ?_, ?_⟩
  · intro i h1 h2 hlo hhi
    have hstop : ¬ (s.timeline.getD (s.timeline.length - 1) 0 ≤ p * 1000) :=
      not_le.mpr (lt_of_lt_of_le hhi
        (pairwise_getD_le _ hmono i (s.timeline.length - 1) (by omega) (by omega)))
    have hfl := findLine_eq_some s.timeline (p * 1000) i hmono h1 h2 hlo hhi
    simp only [update_lyrics_display, if_neg hg, if_neg hstop, hfl]
    by_cases hne : (i : Int) - 1 ≠ s.current_line_index
    · rw [if_pos hne, if_pos hne]
      exact ⟨rfl, rfl⟩
    · rw [if_neg hne, if_neg hne]
      refine ⟨?_, rfl⟩
      rw [not_not] at hne
      exact hne.symm
  · intro hb
    have h0le : s.timeline.getD 0 0 ≤ s.timeline.getD (s.timeline.length - 1) 0 :=
      pairwise_getD_le _ hmono 0 (s.timeline.length - 1) (by omega) (by omega)
    have hstop : ¬ (s.timeline.getD (s.timeline.length - 1) 0 ≤ p * 1000) :=
      not_le.mpr (lt_of_lt_of_le hb h0le)
    have hfl := findLine_none_of_lt_head s.timeline (p * 1000) hmono hb
    simp only [update_lyrics_display, if_neg hg, if_neg hstop, hfl, if_pos hb]
    by_cases hne : s.current_line_index ≠ -1
    · rw [if_pos hne, if_pos hne]
      exact ⟨rfl, rfl⟩
    · rw [if_neg hne, if_neg hne]
      refine ⟨?_, rfl⟩
      rw [not_not] at hne
      exact hne
  · intro hc
    simp only [update_lyrics_display, if_neg hg, if_pos hc]
    simp [stop, hact]

theorem claim_C1_boundary_resolution_witness :
    (update_lyrics_display (witnessState (-1)) (3/2)).2 = [("", "A", "B")] := by
  have e : (3 / 2 : ℚ) * 1000 = 1500 := by norm_num
  have h := (claim_C1_boundary_resolution (witnessState (-1)) (3/2)
      rfl (by decide) rfl (by decide)).1 1 (le_refl 1) (by decide)
      (by show (witnessState (-1)).timeline.getD (1 - 1) 0 ≤ (3/2 : ℚ) * 1000
          rw [e]; decide)
      (by show (3/2 : ℚ) * 1000 < (witnessState (-1)).timeline.getD 1 0
          rw [e]; decide)
  rw [h.2]
  decide

/-- Claim C4: a track-change event always runs stop, ending the session;
a seek event never stops: using the on-demand tracker snapshot it re-runs
the boundary search after resetting the index, pushing the resolved
triple, or the waiting placeholder before t[0], or the finished
placeholder at or past t[n-1]. -/
theorem claim_C4_track_change_vs_seek (s : SyncState) (cur : ℚ)
    (hmono : s.timeline.Pairwise (· ≤ ·)) (hne : s.timeline ≠ []) :
    (∀ tp, handle_track_change s true tp = stop s
        ∧ (handle_track_change s true tp).1.active = false)
    ∧ (handle_track_change s false (some cur)).1.active = s.active
    ∧ (∀ i, 1 ≤ i → i < s.timeline.length →
        s.timeline.getD (i - 1) 0 ≤ cur * 1000 → cur * 1000 < s.timeline.getD i 0 →
        handle_track_change s false (some cur)
          = ({ s with current_line_index := (i : Int) - 1 }, [tripleAt s.lyrics i]))
    ∧ (cur * 1000 < s.timeline.getD 0 0 →
        handle_track_change s false (some cur)
          = ({ s with current_line_index := -1 },
             [("", "Waiting for first line...", s.lyrics.getD 0 "")]))
    ∧ (s.timeline.getD (s.timeline.length - 1) 0 ≤ cur * 1000 →
        handle_track_change s false (some cur)
          = ({ s with current_line_index := -1 }, [("", "Lyrics finished", "")])) := by
  have hlen : 1 ≤ s.timeline.length := List.length_pos.mpr hne
  refine ⟨?_, ?_, ?_, ?_, ?_⟩
  · intro tp
    refine ⟨rfl, ?_⟩
    cases hact : s.active <;> simp [handle_track_change, stop, hact]
  · simp only [handle_track_change, Bool.false_eq_true, if_false]
    rcases hfl : findLine s.timeline (cur * 1000) with _ | i
    · simp only [hfl]
      split <;> rfl
    · simp only [hfl]
  · intro i h1 h2 hlo hhi
    have hfl := findLine_eq_some s.timeline (cur * 1000) i hmono h1 h2 hlo hhi
    simp only [handle_track_change, Bool.false_eq_true, if_false, hfl]
  · intro hb
    have hfl := findLine_none_of_lt_head s.timeline (cur * 1000) hmono hb
    simp only [handle_track_change, Bool.false_eq_true, if_false, hfl, if_pos hb]
  · intro hc
    have hfl := findLine_none_of_ge_last s.timeline (cur * 1000) hmono hc
    have h0le : s.timeline.getD 0 0 ≤ s.timeline.getD (s.timeline.length - 1) 0 :=
      pairwise_getD_le _ hmono 0 (s.timeline.length - 1) (by omega) (by omega)
    have hnlt : ¬ (cur * 1000 < s.timeline.getD 0 0) :=
      not_lt.mpr (le_trans h0le hc)
    simp only [handle_track_change, Bool.false_eq_true, if_false, hfl, if_neg hnlt]

theorem claim_C4_track_change_vs_seek_witness :
    (handle_track_change (witnessState (-1)) true none).1.active = false
    ∧ handle_track_change (witnessState (-1)) false (some (3/2))
      = (witnessState 0, [("", "A", "B")]) := by
  have e : (3 / 2 : ℚ) * 1000 = 1500 := by norm_num
  have h := claim_C4_track_change_vs_seek (witnessState (-1)) (3/2) (by decide) (by decide)
  refine ⟨(h.1 none).2, ?_⟩
  have h3 := h.2.2.1 1 (le_refl 1) (by decide)
    (by show (witnessState (-1)).timeline.getD (1 - 1) 0 ≤ (3/2 : ℚ) * 1000
        rw [e]; decide)
    (by show (3/2 : ℚ) * 1000 < (witnessState (-1)).timeline.getD 1 0
        rw [e]; decide)
  rw [h3]
  decide

/-- Claim C7: starting a session with a known initial position and the
continuous-source flag set primes the display from the first timeline
entry strictly after the position and strictly inside the 10000 ms
look-ahead window: the index is seeded to i - 1 and the corresponding
triple is pushed right after the loading triple. -/
theorem claim_C7_radio_priming (timeline : List ℚ) (lyrics : List String)
    (p : ℚ) (i : Nat)
    (h1 : 1 ≤ i) (h2 : i < timeline.length)
    (hlo : p * 1000 < timeline.getD (i - 1) 0)
    (hhi : timeline.getD (i - 1) 0 < p * 1000 + 10000)
    (hmin : ∀ j, 1 ≤ j → j < i →
      ¬ (p * 1000 < timeline.getD (j - 1) 0 ∧ timeline.getD (j - 1) 0 < p * 1000 + 10000)) :
    (start timeline lyrics (some p) true).1.current_line_index = (i : Int) - 1
    ∧ (start timeline lyrics (some p) true).2
        = [("", "Loading lyrics...", lyrics.getD 0 ""), tripleAt lyrics i]
    ∧ (start timeline lyrics (some p) true).1.active = true := by
  have hfu := findUpcoming_eq_some timeline (p * 1000) i h1 h2 hlo hhi hmin
  simp only [start, if_pos rfl, hfu]
  exact ⟨rfl, rfl, rfl⟩

theorem claim_C7_radio_priming_witness :
    (start [1000, 2000] ["A", "B"] (some (1/10)) true).1.current_line_index = (1 : Int) - 1
    ∧ (start [1000, 2000] ["A", "B"] (some (1/10)) true).2
        = [("", "Loading lyrics...", "A"), ("", "A", "B")] := by
  have e : (1 / 10 : ℚ) * 1000 = 100 := by norm_num
  have e2 : (1 / 10 : ℚ) * 1000 + 10000 = 10100 := by norm_num
  have h := claim_C7_radio_priming [1000, 2000] ["A", "B"] (1/10) 1
    (le_refl 1) (by decide) (by rw [e]; decide) (by rw [e2]; decide)
    (fun j hj hji => absurd (lt_of_le_of_lt hj hji) (by omega))
  refine ⟨h.1, ?_⟩
  rw [h.2.1]
  decide

end MusicCompanion
